import Mathlib

/-
Verification of the chunked-upload/assembly/background-processing core of the
Video-Processing-Tool repository.

The embedding covers:
  - src/api/chunk_api.py  (ChunkedUploadManager.save_chunk, assemble_chunks,
    upload_chunk endpoint) and its near-identical duplicate
    src/api/vid_api.py (VideoUploadManager.save_chunk, assemble_video);
  - src/ai_integration/gemini_processor.py (GeminiProcessor._chunk_text,
    _process_chunk with its tenacity retry decorator, process);
  - src/core/token_counter.py (TokenCounter.count_tokens, an external
    tiktoken encoding, modelled as an opaque function parameter).

Filesystem state is modelled explicitly: a chunk directory is the finite set of
files chunk_0001, chunk_0002, ... of one upload id, and the artifact directory
is a finite map from paths to byte contents.  Since the Python format
string producing a chunk filename from the integer chunk number is injective
and assemble_chunks parses the number back with int(name.split(...)[1]),
the chunk directory is keyed directly by the integer chunk number.  A
filesystem directory cannot hold two files of the same name, so well-formed
directories have no duplicate keys; os.listdir order is irrelevant here
because the source sorts before concatenating and otherwise only counts.
-/

/-- Byte strings: file contents as lists of byte values.  Chunk contents are
opaque bytes to the source code. -/
abbrev Bytes := List Nat

/-- The directory uploads/chunks/UPLOADID of one upload: an association list
from chunk number (the integer encoded in the filename chunk_NNNN) to the
bytes stored in that file. -/
abbrev ChunkDir := List (Int × Bytes)

/-- The artifact namespace uploads/videos: a finite map from file path to
byte content. -/
abbrev FileStore := List (String × Bytes)

namespace VideoTool

/-- Writing file k with content v into a directory: any existing file of the
same name is replaced (opening a file for writing truncates it), all other
files are kept.  The new entry is appended at the end; entry order carries no
meaning, matching a filesystem directory. -/
def upsert {α : Type} [BEq α] (s : List (α × Bytes)) (k : α) (v : Bytes) :
    List (α × Bytes) :=
  s.filter (fun p => p.1 != k) ++ [(k, v)]

/-- The chunk write performed by save_chunk: aiofiles.open(chunk_path, mode w)
followed by writing the uploaded bytes.  Overwrites any previous chunk file of
the same number. -/
def putChunk (d : ChunkDir) (n : Int) (b : Bytes) : ChunkDir :=
  upsert d n b

/-- Reading the artifact file at a path, if present. -/
def readFile (s : FileStore) (path : String) : Option Bytes := s.lookup path

/-- The chunk numbers currently present, i.e. the directory listing of files
named chunk_NNNN with the number parsed back out. -/
def chunkNumbers (d : ChunkDir) : List Int := d.map Prod.fst

/-- Model of len([f for f in os.listdir(upload_dir) if f.startswith(...)]):
the number of chunk files in the upload directory. -/
def uploadedChunks (d : ChunkDir) : Nat := d.length

/-- Reading the chunk file numbered n, if present. -/
def lookupChunk (d : ChunkDir) (n : Int) : Option Bytes := d.lookup n

/-- The dict returned by ChunkedUploadManager.save_chunk. -/
structure SaveResult where
  upload_id : String
  chunk_number : Int
  total_chunks : Int
  status : String
  chunks_uploaded : Nat
deriving Repr, DecidableEq

/-- ChunkedUploadManager.save_chunk (chunk_api.py lines 31-74; the duplicate
VideoUploadManager.save_chunk in vid_api.py lines 49-98 is line-for-line the
same logic): write the chunk file, then count the chunk files present and
report status completed exactly when that count equals total_chunks, else
partial.  No validation of chunk_number or total_chunks is performed. -/
def save_chunk (d : ChunkDir) (uploadId : String) (chunkNumber : Int)
    (totalChunks : Int) (content : Bytes) : ChunkDir × SaveResult :=
  let d2 := putChunk d chunkNumber content
  let uploaded := uploadedChunks d2
  (d2,
    ⟨uploadId, chunkNumber, totalChunks,
      if (uploaded : Int) = totalChunks then "completed" else "partial",
      uploaded⟩)

/-- Saving a list of fragments one after the other through save_chunk,
returning the final chunk directory. -/
def saveAll (uploadId : String) (totalChunks : Int) (d : ChunkDir)
    (arrival : List (Int × Bytes)) : ChunkDir :=
  arrival.foldl (fun acc p => (save_chunk acc uploadId p.1 totalChunks p.2).1) d

/-- The sort performed by assemble_chunks:
sorted(chunk files, key of the parsed integer chunk number).  Python sorted is
stable, and chunk numbers in a directory are pairwise distinct, so any stable
or unstable sort by the numeric key yields the same list. -/
def keyLe (a b : Int × Bytes) : Prop := a.1 ≤ b.1

instance : DecidableRel keyLe := fun a b => inferInstanceAs (Decidable (a.1 ≤ b.1))

instance : IsTotal (Int × Bytes) keyLe := ⟨fun a b => Int.le_total a.1 b.1⟩

instance : IsTrans (Int × Bytes) keyLe := ⟨fun _ _ _ h1 h2 => le_trans h1 h2⟩

/-- Strict ordering on chunk-directory entries by chunk number; used only in
proofs. -/
def keyLt (a b : Int × Bytes) : Prop := a.1 < b.1

instance : IsAntisymm (Int × Bytes) keyLt :=
  ⟨fun _ _ h1 h2 => absurd h1 (not_lt_of_gt h2)⟩

/-- The chunk files in ascending chunk-number order. -/
def sortedChunks (d : ChunkDir) : ChunkDir := List.insertionSort keyLe d

/-- The byte stream written by the assembly loop: each chunk file read in
ascending chunk-number order and appended to the output file. -/
def assembledBytes (d : ChunkDir) : Bytes := ((sortedChunks d).map Prod.snd).flatten

/-- The output path uploads/videos/UPLOADID.mp4 used by assemble_chunks.  The
path is a deterministic function of the upload id, so repeated assemblies of
one upload id target the same artifact reference. -/
def videoPath (uploadId : String) : String := "uploads/videos/" ++ uploadId ++ ".mp4"

/-- Successful result of assemble_chunks: the chunk directory as left behind by
the call (the source deletes nothing), the artifact namespace after the write,
and the returned output path. -/
structure AssembleOk where
  chunk_dir : ChunkDir
  files : FileStore
  output_path : String
deriving Repr, DecidableEq

/-- ChunkedUploadManager.assemble_chunks (chunk_api.py lines 82-126; the
duplicate VideoUploadManager.assemble_video in vid_api.py lines 100-125 is the
same logic minus the emptiness check): list the chunk files, sort them by the
parsed chunk number, raise if there are none, then open the output file for
writing (truncating any previous content) and append every chunk in sorted
order.  The chunk directory is not touched: the source contains no delete of
the fragment set. -/
def assemble_chunks (d : ChunkDir) (uploadId : String) (s : FileStore) :
    Except String AssembleOk :=
  if d.isEmpty then Except.error "No chunks found for the given upload_id"
  else
    Except.ok
      ⟨d, upsert s (videoPath uploadId) (assembledBytes d), videoPath uploadId⟩

/-- The fragments of a source byte stream already split into the pieces
orig, tagged with their 1-based chunk numbers: fragment i+1 carries the
i-th piece.  This is the canonical client-side split that upload requests
permute. -/
def seqFragments (orig : List Bytes) : ChunkDir :=
  orig.enum.map (fun p => ((p.1 : Int) + 1, p.2))

/-- The dense 1-based sequence numbers 1..total. -/
def seqNums (total : Nat) : List Int :=
  (List.range total).map (fun (i : Nat) => (i : Int) + 1)

/-- A concrete two-fragment upload after both fragments were saved; input of
the eighth counterexample. -/
def twoFragmentDir : ChunkDir :=
  (save_chunk (save_chunk [] "u8" 1 2 [10]).1 "u8" 2 2 [20]).1

/-- Structured insight parsed from the generative model output
(gemini_processor.py TextInsight). -/
structure TextInsight where
  sentiment : String
  keywords : List String
  summary : String
  complexity : String
deriving Repr, DecidableEq

/-- The default insight built in the except branch of _process_chunk when the
generate call or the parse of its response fails. -/
def defaultInsight : TextInsight :=
  ⟨"Unknown", [], "Error processing chunk", "N/A"⟩

/-- Outcome of one attempt of the external generate-and-parse step inside
_process_chunk: ok carries a parsed insight, error models a raised
exception. -/
abbrev GenOutcome := Except String TextInsight

/-- The external Gemini call is opaque and may behave differently on each
attempt; it is modelled as a function from the 0-based attempt index to that
attempt's outcome. -/
abbrev GenOracle := Nat → GenOutcome

/-- One invocation of the body of _process_chunk at a given attempt index: the
generate-and-parse step is wrapped in a try/except over every exception, whose
handler logs and returns defaultInsight.  The body therefore never raises: its
outcome is always ok. -/
def processChunkBody (gen : GenOracle) (attempt : Nat) : GenOutcome :=
  match gen attempt with
  | Except.ok insight => Except.ok insight
  | Except.error _ => Except.ok defaultInsight

/-- The tenacity retry combinator with stop_after_attempt semantics: call the
wrapped function; on a raised exception retry, until the given total number of
calls has been spent, then re-raise.  The backoff waits configured by
wait_exponential delay the attempts but do not change any value, so they do not
appear in the model.  The first argument of the recursion is the remaining call
budget, the second the number of calls already made; the result pairs the total
number of calls made with the final outcome. -/
def retryRun (f : Nat → GenOutcome) : Nat → Nat → Nat × GenOutcome
  | 0, made => (made, Except.error "RetryError")
  | fuel + 1, made =>
    match f made with
    | Except.ok a => (made + 1, Except.ok a)
    | Except.error e =>
      if fuel = 0 then (made + 1, Except.error e) else retryRun f fuel (made + 1)

/-- GeminiProcessor._process_chunk as decorated: the retry combinator with a
budget of 3 attempts applied to the body.  Returns the number of calls made
together with the outcome. -/
def processChunkRun (gen : GenOracle) : Nat × GenOutcome :=
  retryRun (processChunkBody gen) 3 0

/-- The insight the caller of _process_chunk receives.  The error case of the
outcome is unreachable because the body never raises; it is mapped to
defaultInsight only to keep the function total. -/
def processChunkResult (gen : GenOracle) : TextInsight :=
  match (processChunkRun gen).2 with
  | Except.ok insight => insight
  | Except.error _ => defaultInsight

/-- An oracle for the concrete scenario of the sixth claim: the generate call
raises on the first two attempts and returns the given insight on the third. -/
def failTwiceThenOk (good : TextInsight) : GenOracle :=
  fun i => if i < 2 then Except.error "generate_content failed" else Except.ok good

/-- Whitespace test matching the Python str.split default. -/
def isSpaceChar (c : Char) : Bool := c = ' ' || c = '\t' || c = '\n' || c = '\r'

/-- Python text.split() with no argument: split on runs of whitespace,
dropping empty pieces. -/
def splitWords (s : String) : List String :=
  ((s.data.splitOnP isSpaceChar).filter (fun w => !w.isEmpty)).map String.mk

/-- The space join applied to a finished group of words by _chunk_text. -/
def joinWords (ws : List String) : String := String.intercalate " " ws

/-- The accumulation loop of GeminiProcessor._chunk_text (lines 43-74), kept at
the level of word groups: walk the words; whenever adding the next word would
push the running token count over maxTokens, flush the current group (even when
it is empty, exactly as the source appends the join of an empty list) and start
a new group with that word; flush the trailing group only when non-empty.  The
running count is the sum of the per-word counts as returned by the token
counter. -/
def chunkGroups (count : String → Nat) (maxTokens : Nat) :
    List String → List String → Nat → List (List String)
  | [], current, _ => if current.isEmpty then [] else [current]
  | w :: ws, current, tokenCount =>
    if tokenCount + count w > maxTokens then
      current :: chunkGroups count maxTokens ws [w] (count w)
    else
      chunkGroups count maxTokens ws (current ++ [w]) (tokenCount + count w)

/-- GeminiProcessor._chunk_text: split the text into words, group them under
the running token bound, and join each group with single spaces.  The token
counter (TokenCounter.count_tokens, an external tiktoken encoding) is passed as
an opaque function. -/
def chunk_text (count : String → Nat) (maxTokens : Nat) (text : String) :
    List String :=
  (chunkGroups count maxTokens (splitWords text) [] 0).map joinWords

/-- One element of the text_data list handed to GeminiProcessor.process. -/
structure Entry where
  text : String
  frame_path : Option String
deriving Repr, DecidableEq

/-- The per-entry dict built by GeminiProcessor.process.  The error field mirrors
the key added by the per-entry except branch; in the embedding every step of
the loop body is a total function (in particular _process_chunk never raises),
so that branch is unreachable and the field is always none. -/
structure EnhancedEntry where
  original_text : String
  frame_path : Option String
  total_tokens : Nat
  insights : List TextInsight
  error : Option String
deriving Repr, DecidableEq

/-- The body of the loop of GeminiProcessor.process for one entry: chunk the
text with the default bound of 2000 tokens, run _process_chunk on every chunk,
and aggregate the per-chunk insights in chunk order.  The oracle assigns to
each chunk text the attempt-indexed outcomes of its external generate calls. -/
def processEntry (count : String → Nat) (oracle : String → GenOracle)
    (e : Entry) : EnhancedEntry :=
  ⟨e.text, e.frame_path, count e.text,
    (chunk_text count 2000 e.text).map (fun c => processChunkResult (oracle c)),
    none⟩

/-- GeminiProcessor.process (lines 148-193): map the loop body over the
entries; every entry yields exactly one result dict and no exception escapes
to the caller. -/
def process (count : String → Nat) (oracle : String → GenOracle)
    (data : List Entry) : List EnhancedEntry :=
  data.map (processEntry count oracle)

/-
Helper lemmas about the store model.  None of these is a claim theorem.
-/

theorem lookup_append_keys_ne {α : Type} [BEq α] [LawfulBEq α]
    (l : List (α × Bytes)) (k : α) (v : Bytes) (h : ∀ p ∈ l, p.1 ≠ k) :
    (l ++ [(k, v)]).lookup k = some v := by
  induction l with
  | nil => simp [List.lookup]
  | cons p t ih =>
    have hp : (k == p.1) = false :=
      beq_eq_false_iff_ne.mpr (fun he => h p (List.mem_cons_self p t) he.symm)
    simpa [List.lookup, hp] using ih (fun q hq => h q (List.mem_cons_of_mem p hq))

theorem lookup_upsert_self {α : Type} [BEq α] [LawfulBEq α]
    (s : List (α × Bytes)) (k : α) (v : Bytes) :
    (upsert s k v).lookup k = some v := by
  apply lookup_append_keys_ne
  intro p hp
  exact bne_iff_ne.mp (List.mem_filter.mp hp).2

theorem lookup_upsert_ne {α : Type} [BEq α] [LawfulBEq α]
    (s : List (α × Bytes)) (k m : α) (v : Bytes) (h : m ≠ k) :
    (upsert s k v).lookup m = s.lookup m := by
  induction s with
  | nil => simp [upsert, List.lookup, beq_eq_false_iff_ne.mpr h]
  | cons p t ih =>
    by_cases hk : (p.1 != k) = true
    · by_cases hm : (m == p.1) = true
      · simp [upsert, List.filter_cons, hk, List.lookup, hm]
      · simpa [upsert, List.filter_cons, hk, List.lookup, hm] using ih
    · have hpk : p.1 = k := by
        have := (Bool.not_eq_true _).mp hk
        simpa [bne_iff_ne] using this
      have hm : (m == p.1) = false := beq_eq_false_iff_ne.mpr (hpk ▸ h)
      simpa [upsert, List.filter_cons, hk, List.lookup, hm] using ih

theorem lookup_of_mem_nodup_keys (l : List (Int × Bytes)) (q : Int × Bytes)
    (hq : q ∈ l) (h : (l.map Prod.fst).Nodup) : l.lookup q.1 = some q.2 := by
  induction l with
  | nil => cases hq
  | cons p t ih =>
    rcases List.mem_cons.mp hq with he | ht
    · subst he; simp [List.lookup]
    · have hne : (q.1 == p.1) = false := by
        apply beq_eq_false_iff_ne.mpr
        intro he
        have hpin : p.1 ∈ t.map Prod.fst := he ▸ List.mem_map_of_mem Prod.fst ht
        exact (List.nodup_cons.mp h).1 hpin
      simpa [List.lookup, hne] using ih ht (List.nodup_cons.mp h).2

theorem map_fst_filter_ne (d : ChunkDir) (n : Int) :
    (d.filter (fun p => p.1 != n)).map Prod.fst
      = (d.map Prod.fst).filter (fun m => m != n) := by
  induction d with
  | nil => rfl
  | cons p t ih =>
    by_cases h : (p.1 != n) = true
    · simp [List.filter_cons, h, ih]
    · simp [List.filter_cons, h, ih]

theorem chunkNumbers_putChunk (d : ChunkDir) (n : Int) (b : Bytes) :
    chunkNumbers (putChunk d n b)
      = (chunkNumbers d).filter (fun m => m != n) ++ [n] := by
  unfold chunkNumbers putChunk upsert
  rw [List.map_append, map_fst_filter_ne]
  rfl

theorem chunkNumbers_putChunk_nodup (d : ChunkDir) (n : Int) (b : Bytes)
    (h : (chunkNumbers d).Nodup) : (chunkNumbers (putChunk d n b)).Nodup := by
  rw [chunkNumbers_putChunk]
  refine List.Nodup.append (h.filter _) (List.nodup_singleton n) ?_
  intro m hm hn
  have h1 : (m != n) = true := (List.mem_filter.mp hm).2
  have h2 : m = n := List.mem_singleton.mp hn
  exact bne_iff_ne.mp h1 h2

theorem putChunk_fresh (d : ChunkDir) (n : Int) (b : Bytes)
    (h : n ∉ chunkNumbers d) : putChunk d n b = d ++ [(n, b)] := by
  unfold putChunk upsert
  congr 1
  apply List.filter_eq_self.mpr
  intro p hp
  exact bne_iff_ne.mpr (fun he => h (he ▸ List.mem_map_of_mem Prod.fst hp))

theorem save_chunk_dir (d : ChunkDir) (uid : String) (n : Int) (total : Int)
    (b : Bytes) : (save_chunk d uid n total b).1 = putChunk d n b := rfl

theorem saveAll_fresh (uid : String) (total : Int) :
    ∀ (l : List (Int × Bytes)) (d : ChunkDir),
      (d.map Prod.fst ++ l.map Prod.fst).Nodup → saveAll uid total d l = d ++ l := by
  intro l
  induction l with
  | nil => intro d _; simp [saveAll]
  | cons p t ih =>
    intro d h
    have hfresh : p.1 ∉ chunkNumbers d := by
      have hdis := (List.nodup_append.mp h).2.2
      intro hin
      exact hdis hin (by simp)
    have step : saveAll uid total d (p :: t) = saveAll uid total (putChunk d p.1 p.2) t := rfl
    rw [step, putChunk_fresh d p.1 p.2 hfresh, ih (d ++ [(p.1, p.2)])]
    · simp
    · simpa [List.append_assoc] using h

theorem save_chunk_status_completed (d : ChunkDir) (uid : String) (n : Int)
    (total : Int) (b : Bytes) :
    (save_chunk d uid n total b).2.status = "completed"
      ↔ (uploadedChunks (putChunk d n b) : Int) = total := by
  by_cases h : (uploadedChunks (putChunk d n b) : Int) = total
  · simp [save_chunk, h]
  · simp [save_chunk, h]

theorem sorted_keyLt_of_nodup {l : ChunkDir} (hs : List.Sorted keyLe l)
    (hnd : (l.map Prod.fst).Nodup) : List.Sorted keyLt l := by
  have hne : List.Pairwise (fun a b : Int × Bytes => a.1 ≠ b.1) l :=
    List.pairwise_map.mp hnd
  exact (List.Pairwise.and hs hne).imp (fun h => lt_of_le_of_ne h.1 h.2)

theorem sortedChunks_eq (d e : ChunkDir) (hperm : d.Perm e)
    (hnd : (d.map Prod.fst).Nodup) (hse : List.Sorted keyLt e) :
    sortedChunks d = e := by
  have hsd : List.Sorted keyLt (sortedChunks d) := by
    apply sorted_keyLt_of_nodup (List.sorted_insertionSort keyLe d)
    exact (((List.perm_insertionSort keyLe d).map Prod.fst).nodup_iff).mpr hnd
  exact @List.eq_of_perm_of_sorted _ keyLt _ _ _
    ((List.perm_insertionSort keyLe d).trans hperm) hsd hse

theorem seqFragments_map_fst (orig : List Bytes) :
    (seqFragments orig).map Prod.fst
      = (List.range orig.length).map (fun (i : Nat) => (i : Int) + 1) := by
  unfold seqFragments
  rw [List.map_map]
  have hc : (Prod.fst ∘ fun p : Nat × Bytes => ((p.1 : Int) + 1, p.2))
      = (fun (i : Nat) => (i : Int) + 1) ∘ Prod.fst := rfl
  rw [hc, ← List.map_map, List.enum_map_fst]

theorem seqFragments_map_snd (orig : List Bytes) :
    (seqFragments orig).map Prod.snd = orig := by
  unfold seqFragments
  rw [List.map_map]
  have hc : (Prod.snd ∘ fun p : Nat × Bytes => ((p.1 : Int) + 1, p.2)) = Prod.snd := rfl
  rw [hc, List.enum_map_snd]

theorem seqFragments_keys_nodup (orig : List Bytes) :
    ((seqFragments orig).map Prod.fst).Nodup := by
  rw [seqFragments_map_fst]
  refine List.Nodup.map ?_ (List.nodup_range _)
  intro a b h
  have h2 : (a : Int) + 1 = (b : Int) + 1 := h
  omega

theorem seqFragments_sorted (orig : List Bytes) :
    List.Sorted keyLt (seqFragments orig) := by
  show List.Pairwise keyLt (orig.enum.map (fun p => ((p.1 : Int) + 1, p.2)))
  rw [List.pairwise_map]
  have h1 : List.Pairwise (fun p q : Nat × Bytes => p.1 < q.1) orig.enum := by
    have h0 := List.pairwise_lt_range orig.length
    rw [← List.enum_map_fst orig] at h0
    exact List.pairwise_map.mp h0
  refine h1.imp ?_
  intro a b h
  show (a.1 : Int) + 1 < (b.1 : Int) + 1
  omega

theorem seqFragments_length (orig : List Bytes) :
    (seqFragments orig).length = orig.length := by
  unfold seqFragments
  rw [List.length_map, List.enum_length]

theorem assembledBytes_eq_of_perm (d : ChunkDir) (orig : List Bytes)
    (hperm : d.Perm (seqFragments orig)) :
    assembledBytes d = orig.flatten := by
  have hnd : (d.map Prod.fst).Nodup :=
    ((hperm.map Prod.fst).nodup_iff).mpr (seqFragments_keys_nodup orig)
  unfold assembledBytes
  rw [sortedChunks_eq d (seqFragments orig) hperm hnd (seqFragments_sorted orig),
    seqFragments_map_snd]

theorem lookup_append_of_some {α : Type} [BEq α] (l1 l2 : List (α × Bytes))
    (k : α) (v : Bytes) (h : l1.lookup k = some v) :
    (l1 ++ l2).lookup k = some v := by
  induction l1 with
  | nil => simp [List.lookup] at h
  | cons p t ih =>
    by_cases hk : (k == p.1) = true
    · simpa [List.lookup, hk] using h
    · rw [List.cons_append]
      simp only [List.lookup, hk] at h ⊢
      exact ih h

theorem save_chunk_status_partial (d : ChunkDir) (uid : String) (n : Int)
    (total : Int) (b : Bytes)
    (h : (uploadedChunks (putChunk d n b) : Int) ≠ total) :
    (save_chunk d uid n total b).2.status = "partial" := by
  simp [save_chunk, h]

theorem chunkNumbers_length (d : ChunkDir) :
    (chunkNumbers d).length = uploadedChunks d := List.length_map d Prod.fst

theorem processChunkBody_ok (g : GenOracle) (i : Nat) :
    ∃ t, processChunkBody g i = Except.ok t := by
  cases h : g i with
  | error m => exact ⟨defaultInsight, by simp [processChunkBody, h]⟩
  | ok t => exact ⟨t, by simp [processChunkBody, h]⟩

theorem processChunkBody_of_error (g : GenOracle) (m : String) (i : Nat)
    (h : g i = Except.error m) :
    processChunkBody g i = Except.ok defaultInsight := by
  simp [processChunkBody, h]

theorem retryRun_succ (f : Nat → GenOutcome) (fuel made : Nat) :
    retryRun f (fuel + 1) made
      = match f made with
        | Except.ok a => (made + 1, Except.ok a)
        | Except.error e =>
          if fuel = 0 then (made + 1, Except.error e) else retryRun f fuel (made + 1) := rfl

theorem processChunkRun_of_body_ok (g : GenOracle) (t : TextInsight)
    (h : processChunkBody g 0 = Except.ok t) :
    processChunkRun g = (1, Except.ok t) := by
  have h1 := retryRun_succ (processChunkBody g) 2 0
  rw [h] at h1
  exact h1

theorem processChunkResult_of_fail (g : GenOracle) (m : String)
    (h : g 0 = Except.error m) : processChunkResult g = defaultInsight := by
  have hb := processChunkBody_of_error g m 0 h
  have hr := processChunkRun_of_body_ok g defaultInsight hb
  simp [processChunkResult, hr]

theorem chunkGroups_sum_le (count : String → Nat) (maxTokens : Nat) :
    ∀ (ws current : List String) (tc : Nat),
      (∀ w ∈ ws, count w ≤ maxTokens) → (current.map count).sum = tc →
      tc ≤ maxTokens →
      ∀ g ∈ chunkGroups count maxTokens ws current tc,
        (g.map count).sum ≤ maxTokens := by
  intro ws
  induction ws with
  | nil =>
    intro current tc hws hsum htc g hg
    by_cases hc : current.isEmpty
    · simp [chunkGroups, hc] at hg
    · simp [chunkGroups, hc] at hg
      subst hg
      exact hsum ▸ htc
  | cons w ws ih =>
    intro current tc hws hsum htc g hg
    have hwle : count w ≤ maxTokens := hws w (List.mem_cons_self w ws)
    have hwt : ∀ u ∈ ws, count u ≤ maxTokens :=
      fun u hu => hws u (List.mem_cons_of_mem w hu)
    by_cases hcond : tc + count w > maxTokens
    · simp only [chunkGroups, if_pos hcond] at hg
      rcases List.mem_cons.mp hg with he | hg2
      · subst he
        exact hsum ▸ htc
      · exact ih [w] (count w) hwt (by simp) hwle g hg2
    · simp only [chunkGroups, if_neg hcond] at hg
      refine ih (current ++ [w]) (tc + count w) hwt ?_ ?_ g hg
      · simp [hsum]
      · omega

/-
Claim theorems.
-/

/-- C1: for every set of fragments of an upload and every permutation of their
arrival order, once all fragments have been saved through save_chunk, assembling
produces an artifact whose byte content equals the concatenation of the
fragments in ascending sequence-number order, byte-identical to the original
source split into those fragments, independent of arrival order. -/
theorem C1_assembly_order_independent (orig : List Bytes) (h0 : orig ≠ [])
    (uid : String) (total : Int) (s : FileStore) (arrival : List (Int × Bytes))
    (hperm : arrival.Perm (seqFragments orig)) :
    assemble_chunks (saveAll uid total [] arrival) uid s
      = Except.ok ⟨arrival, upsert s (videoPath uid) orig.flatten, videoPath uid⟩ := by
  have hndA : (arrival.map Prod.fst).Nodup :=
    ((hperm.map Prod.fst).nodup_iff).mpr (seqFragments_keys_nodup orig)
  have hsave : saveAll uid total [] arrival = arrival := by
    simpa using saveAll_fresh uid total arrival [] (by simpa using hndA)
  have hne : arrival ≠ [] := by
    intro h
    apply h0
    have hl := hperm.length_eq
    rw [h, List.length_nil, seqFragments_length] at hl
    exact List.length_eq_zero.mp hl.symm
  have hie : arrival.isEmpty = false := by simpa [List.isEmpty_iff] using hne
  have hab : assembledBytes arrival = orig.flatten :=
    assembledBytes_eq_of_perm arrival orig hperm
  rw [hsave]
  simp [assemble_chunks, hie, hab]

/-- Witness for C1: the concrete scenario of the spec, three fragments of bytes
65, 66, 67 arriving in the order 2, 1, 3. -/
theorem C1_assembly_order_independent_witness :
    assemble_chunks
        (saveAll "u1" 3 [] [((2 : Int), ([66] : Bytes)), (1, [65]), (3, [67])]) "u1" []
      = Except.ok ⟨[((2 : Int), ([66] : Bytes)), (1, [65]), (3, [67])],
          upsert [] (videoPath "u1") ([[65], [66], [67]] : List Bytes).flatten,
          videoPath "u1"⟩ :=
  C1_assembly_order_independent [[65], [66], [67]] (by decide) "u1" 3 []
    [((2 : Int), ([66] : Bytes)), (1, [65]), (3, [67])] (by decide)

/-- C2: the status returned by save_chunk is completed exactly when the number
of distinct chunk numbers persisted after the write equals total_chunks; a
post-write count of total_chunks minus one always yields partial. -/
theorem C2_completion_exact (d : ChunkDir) (uid : String) (n : Int)
    (total : Int) (b : Bytes) (hnd : (chunkNumbers d).Nodup) :
    (chunkNumbers (save_chunk d uid n total b).1).Nodup ∧
    ((save_chunk d uid n total b).2.status = "completed"
      ↔ ((chunkNumbers (save_chunk d uid n total b).1).length : Int) = total) ∧
    (((chunkNumbers (save_chunk d uid n total b).1).length : Int) = total - 1 →
      1 ≤ total → (save_chunk d uid n total b).2.status = "partial") := by
  have hnd2 : (chunkNumbers (putChunk d n b)).Nodup :=
    chunkNumbers_putChunk_nodup d n b hnd
  refine ⟨hnd2, ?_, ?_⟩
  · rw [save_chunk_status_completed, save_chunk_dir, chunkNumbers_length]
  · intro h1 _
    apply save_chunk_status_partial
    rw [← chunkNumbers_length]
    rw [save_chunk_dir, chunkNumbers_length] at h1
    rw [chunkNumbers_length]
    omega

/-- Witness for C2: a second distinct fragment of a three-fragment upload is
still partial. -/
theorem C2_completion_exact_witness :
    (chunkNumbers (save_chunk [((1 : Int), ([0] : Bytes))] "u2" 2 3 [5]).1).Nodup ∧
    ((save_chunk [((1 : Int), ([0] : Bytes))] "u2" 2 3 [5]).2.status = "completed"
      ↔ ((chunkNumbers (save_chunk [((1 : Int), ([0] : Bytes))] "u2" 2 3 [5]).1).length : Int) = 3) ∧
    (((chunkNumbers (save_chunk [((1 : Int), ([0] : Bytes))] "u2" 2 3 [5]).1).length : Int) = 3 - 1 →
      1 ≤ (3 : Int) →
      (save_chunk [((1 : Int), ([0] : Bytes))] "u2" 2 3 [5]).2.status = "partial") :=
  C2_completion_exact [((1 : Int), ([0] : Bytes))] "u2" 2 3 [5] (by decide)

/-- C3: for a complete fragment set, a second call to assemble_chunks returns
the same output path as the first, returns successfully rather than raising,
and the artifact content after the second call is still the single
concatenation of the fragments in ascending order, not doubled (the output file
is opened for truncating write and the same sorted chunk list is written
again). -/
theorem C3_second_assembly_idempotent (d : ChunkDir) (uid : String)
    (s : FileStore) (total : Nat) (h1 : 1 ≤ total)
    (hcomp : (chunkNumbers d).Perm (seqNums total)) :
    ∃ a1 a2,
      assemble_chunks d uid s = Except.ok a1 ∧
      assemble_chunks a1.chunk_dir uid a1.files = Except.ok a2 ∧
      a2.output_path = a1.output_path ∧
      readFile a2.files a2.output_path = some (assembledBytes d) := by
  have hlen : d.length = total := by
    have h2 := hcomp.length_eq
    rw [chunkNumbers_length] at h2
    simpa [seqNums, uploadedChunks] using h2
  have hne : d.isEmpty = false := by
    have hd : d ≠ [] := by
      intro h
      rw [h] at hlen
      simp at hlen
      omega
    simpa [List.isEmpty_iff] using hd
  refine ⟨⟨d, upsert s (videoPath uid) (assembledBytes d), videoPath uid⟩,
    ⟨d, upsert (upsert s (videoPath uid) (assembledBytes d)) (videoPath uid)
        (assembledBytes d), videoPath uid⟩, ?_, ?_, rfl, ?_⟩
  · simp [assemble_chunks, hne]
  · simp [assemble_chunks, hne]
  · exact lookup_upsert_self _ _ _

/-- Witness for C3: a complete two-fragment upload assembled twice. -/
theorem C3_second_assembly_idempotent_witness :
    ∃ a1 a2,
      assemble_chunks [((1 : Int), ([7] : Bytes)), (2, [8])] "u3" [] = Except.ok a1 ∧
      assemble_chunks a1.chunk_dir "u3" a1.files = Except.ok a2 ∧
      a2.output_path = a1.output_path ∧
      readFile a2.files a2.output_path
        = some (assembledBytes [((1 : Int), ([7] : Bytes)), (2, [8])]) :=
  C3_second_assembly_idempotent [((1 : Int), ([7] : Bytes)), (2, [8])] "u3" [] 2
    (by decide) (by decide)

/-- C4: resending fragment n with new bytes before completion leaves the set of
distinct recorded chunk numbers unchanged (the chunk file is overwritten, so
the last write wins) and the returned status is partial again, not a second
completed signal. -/
theorem C4_resend_overwrites (d : ChunkDir) (uid : String) (n : Int)
    (total : Int) (b2 : Bytes) (hnd : (chunkNumbers d).Nodup)
    (hmem : n ∈ chunkNumbers d) (hpart : (uploadedChunks d : Int) ≠ total) :
    (chunkNumbers (save_chunk d uid n total b2).1).Perm (chunkNumbers d) ∧
    uploadedChunks (save_chunk d uid n total b2).1 = uploadedChunks d ∧
    lookupChunk (save_chunk d uid n total b2).1 n = some b2 ∧
    (save_chunk d uid n total b2).2.status = "partial" := by
  have hperm : (chunkNumbers (putChunk d n b2)).Perm (chunkNumbers d) := by
    rw [chunkNumbers_putChunk, ← List.Nodup.erase_eq_filter hnd n]
    exact (List.perm_append_singleton n _).trans (List.perm_cons_erase hmem).symm
  have hcount : uploadedChunks (putChunk d n b2) = uploadedChunks d := by
    rw [← chunkNumbers_length, ← chunkNumbers_length]
    exact hperm.length_eq
  refine ⟨hperm, hcount, lookup_upsert_self d n b2, ?_⟩
  apply save_chunk_status_partial
  rw [hcount]
  exact hpart

/-- Witness for C4: fragment 1 of a three-fragment upload resent with new
bytes while only two fragments are present. -/
theorem C4_resend_overwrites_witness :
    (chunkNumbers (save_chunk [((1 : Int), ([0] : Bytes)), (2, [3])] "u4" 1 3 [9]).1).Perm
        (chunkNumbers [((1 : Int), ([0] : Bytes)), (2, [3])]) ∧
    uploadedChunks (save_chunk [((1 : Int), ([0] : Bytes)), (2, [3])] "u4" 1 3 [9]).1
      = uploadedChunks [((1 : Int), ([0] : Bytes)), (2, [3])] ∧
    lookupChunk (save_chunk [((1 : Int), ([0] : Bytes)), (2, [3])] "u4" 1 3 [9]).1 1
      = some [9] ∧
    (save_chunk [((1 : Int), ([0] : Bytes)), (2, [3])] "u4" 1 3 [9]).2.status = "partial" :=
  C4_resend_overwrites [((1 : Int), ([0] : Bytes)), (2, [3])] "u4" 1 3 [9]
    (by decide) (by decide) (by decide)

/-- C5 counterexample: fragment 1 sent with total_chunks 5 and then fragment 2
for the same upload id with total_chunks 6 is accepted silently: the second
write returns a normal partial status and both fragments are persisted, so no
consistency error is raised, contradicting the claim. -/
theorem C5_counterexample :
    (save_chunk (save_chunk [] "u5" 1 5 [0]).1 "u5" 2 6 [1]).2.status = "partial" ∧
    lookupChunk (save_chunk (save_chunk [] "u5" 1 5 [0]).1 "u5" 2 6 [1]).1 2 = some [1] ∧
    lookupChunk (save_chunk (save_chunk [] "u5" 1 5 [0]).1 "u5" 2 6 [1]).1 1 = some [0] := by
  decide

/-- C5 amended: a fragment submitted with a total_chunks value different from
the value given on an earlier fragment of the same upload id is accepted
without any error: the write is persisted and the completion comparison simply
uses the total_chunks value supplied with the current request. -/
theorem C5_inconsistent_total_accepted (d : ChunkDir) (uid : String)
    (n1 n2 : Int) (t1 t2 : Int) (b1 b2 : Bytes) (_hne : t1 ≠ t2) :
    lookupChunk (save_chunk (save_chunk d uid n1 t1 b1).1 uid n2 t2 b2).1 n2 = some b2 ∧
    ((save_chunk (save_chunk d uid n1 t1 b1).1 uid n2 t2 b2).2.status = "completed"
      ↔ (uploadedChunks (save_chunk (save_chunk d uid n1 t1 b1).1 uid n2 t2 b2).1 : Int) = t2) ∧
    (save_chunk (save_chunk d uid n1 t1 b1).1 uid n2 t2 b2).2.total_chunks = t2 := by
  refine ⟨lookup_upsert_self _ n2 b2, ?_, rfl⟩
  rw [save_chunk_status_completed]
  exact Iff.rfl

/-- Witness for the amended C5: totals 5 then 6 on one upload id. -/
theorem C5_inconsistent_total_accepted_witness :
    lookupChunk (save_chunk (save_chunk [] "u5w" 1 5 [0]).1 "u5w" 2 6 [1]).1 2 = some [1] ∧
    ((save_chunk (save_chunk [] "u5w" 1 5 [0]).1 "u5w" 2 6 [1]).2.status = "completed"
      ↔ (uploadedChunks (save_chunk (save_chunk [] "u5w" 1 5 [0]).1 "u5w" 2 6 [1]).1 : Int) = 6) ∧
    (save_chunk (save_chunk [] "u5w" 1 5 [0]).1 "u5w" 2 6 [1]).2.total_chunks = 6 :=
  C5_inconsistent_total_accepted [] "u5w" 1 2 5 6 [0] [1] (by decide)

/-- C6: the source decorates _process_chunk with a three-attempt exponential
retry, but the body catches every exception of the generate-and-parse step and
returns the default insight, so the decorator never observes a failure.  On the
scenario of the claim (the call fails twice, then succeeds) the decorated
function makes exactly one call and yields the placeholder, while the retry
combinator applied to the raw call: the behavior the decoration and the claim
describe: would make exactly three calls and yield the real insight. -/
theorem C6_retry_defeated_by_inner_except (good : TextInsight) :
    processChunkRun (failTwiceThenOk good) = (1, Except.ok defaultInsight) ∧
    retryRun (failTwiceThenOk good) 3 0 = (3, Except.ok good) := by
  constructor <;> rfl

/-- C7: a chunk whose generate call fails on every attempt yields the
placeholder insight with sentiment Unknown and empty keywords, the per-entry
result is produced for every entry of the job (no exception reaches the
caller), and every other chunk of the entry keeps its own insight. -/
theorem C7_placeholder_on_exhausted_failure (count : String → Nat)
    (oracle : String → GenOracle) (data : List Entry) (e : Entry)
    (he : e ∈ data) :
    (process count oracle data).length = data.length ∧
    processEntry count oracle e ∈ process count oracle data ∧
    (processEntry count oracle e).error = none ∧
    (processEntry count oracle e).insights
      = (chunk_text count 2000 e.text).map (fun c => processChunkResult (oracle c)) ∧
    ∀ c ∈ chunk_text count 2000 e.text,
      (∀ i, ∃ m, oracle c i = Except.error m) →
      processChunkResult (oracle c) = defaultInsight ∧
      (processChunkResult (oracle c)).sentiment = "Unknown" ∧
      (processChunkResult (oracle c)).keywords = [] := by
  refine ⟨List.length_map data _, List.mem_map_of_mem _ he, rfl, rfl, ?_⟩
  intro c _ hfail
  obtain ⟨m, hm⟩ := hfail 0
  have hres := processChunkResult_of_fail (oracle c) m hm
  exact ⟨hres, by rw [hres]; rfl, by rw [hres]; rfl⟩

/-- Witness for C7: a one-entry job whose single oracle always fails. -/
theorem C7_placeholder_on_exhausted_failure_witness :
    (process String.length (fun _ _ => Except.error "api down") [⟨"hi", none⟩]).length
        = ([⟨"hi", none⟩] : List Entry).length ∧
    processEntry String.length (fun _ _ => Except.error "api down") ⟨"hi", none⟩
        ∈ process String.length (fun _ _ => Except.error "api down") [⟨"hi", none⟩] ∧
    (processEntry String.length (fun _ _ => Except.error "api down") ⟨"hi", none⟩).error
        = none ∧
    (processEntry String.length (fun _ _ => Except.error "api down") ⟨"hi", none⟩).insights
      = (chunk_text String.length 2000 (Entry.text ⟨"hi", none⟩)).map
          (fun c => processChunkResult ((fun _ _ => Except.error "api down") c)) ∧
    ∀ c ∈ chunk_text String.length 2000 (Entry.text ⟨"hi", none⟩),
      (∀ i, ∃ m, (fun _ _ => Except.error "api down" : String → GenOracle) c i
          = Except.error m) →
      processChunkResult ((fun _ _ => Except.error "api down" : String → GenOracle) c)
          = defaultInsight ∧
      (processChunkResult ((fun _ _ => Except.error "api down" : String → GenOracle) c)).sentiment
          = "Unknown" ∧
      (processChunkResult ((fun _ _ => Except.error "api down" : String → GenOracle) c)).keywords
          = [] :=
  C7_placeholder_on_exhausted_failure String.length
    (fun _ _ => Except.error "api down") [⟨"hi", none⟩] ⟨"hi", none⟩ (by simp)

/-- C8 counterexample: a complete two-fragment upload is assembled
successfully, yet both chunk files are still present in the chunk directory
afterwards: the source never deletes the fragment set, contradicting the
claimed garbage collection. -/
theorem C8_counterexample :
    (assemble_chunks twoFragmentDir "u8" []).toOption.map AssembleOk.chunk_dir
        = some twoFragmentDir ∧
    lookupChunk twoFragmentDir 1 = some [10] ∧
    lookupChunk twoFragmentDir 2 = some [20] := by
  decide

/-- C8 amended: after a successful assembly the fragment set of the upload id
remains in the ChunkStore unchanged; no cleanup of the chunk directory is
performed. -/
theorem C8_no_cleanup_after_assembly (d : ChunkDir) (uid : String)
    (s : FileStore) (hne : d ≠ []) :
    ∃ a, assemble_chunks d uid s = Except.ok a ∧ a.chunk_dir = d := by
  have hie : d.isEmpty = false := by simpa [List.isEmpty_iff] using hne
  exact ⟨⟨d, upsert s (videoPath uid) (assembledBytes d), videoPath uid⟩,
    by simp [assemble_chunks, hie], rfl⟩

/-- Witness for the amended C8. -/
theorem C8_no_cleanup_after_assembly_witness :
    ∃ a, assemble_chunks [((1 : Int), ([0] : Bytes))] "u8w" [] = Except.ok a ∧
      a.chunk_dir = [((1 : Int), ([0] : Bytes))] :=
  C8_no_cleanup_after_assembly [((1 : Int), ([0] : Bytes))] "u8w" [] (by decide)

/-- C9 counterexample: with a token counter under which the single word of the
text costs 4 tokens and a configured maximum of 3, the chunker emits that word
as its own segment (preceded by an empty flush segment), and that segment
exceeds the maximum: the claimed bound fails. -/
theorem C9_counterexample :
    chunk_text String.length 3 "abcd" = ["", "abcd"] ∧
    3 < String.length "abcd" := by
  decide

/-- C9 amended: provided every single word of the text has token count at most
the configured maximum, every produced segment is the space join of a word
group whose summed per-word token count (the quantity the chunker tracks) is at
most the maximum; a single word exceeding the maximum is emitted as its own
oversized segment. -/
theorem C9_chunk_word_sum_bounded (count : String → Nat) (maxTokens : Nat)
    (text : String) (hw : ∀ w ∈ splitWords text, count w ≤ maxTokens) :
    ∀ c ∈ chunk_text count maxTokens text,
      ∃ g ∈ chunkGroups count maxTokens (splitWords text) [] 0,
        c = joinWords g ∧ (g.map count).sum ≤ maxTokens := by
  intro c hc
  obtain ⟨g, hg, hgc⟩ := List.mem_map.mp hc
  exact ⟨g, hg, hgc.symm,
    chunkGroups_sum_le count maxTokens (splitWords text) [] 0 hw rfl
      (Nat.zero_le _) g hg⟩

/-- Witness for the amended C9: the single segment produced from two short
words under a bound of 5 comes from a group whose word lengths sum to 4. -/
theorem C9_chunk_word_sum_bounded_witness :
    ∃ g ∈ chunkGroups String.length 5 (splitWords "ab cd") [] 0,
      "ab cd" = joinWords g ∧ (g.map String.length).sum ≤ 5 :=
  C9_chunk_word_sum_bounded String.length 5 "ab cd" (by decide) "ab cd" (by decide)

/-- C10: save_chunk accepts any integer chunk_number, including 0, negative
values and values above total_chunks: the write succeeds and is persisted with
no validation, and each distinct number counts toward completion, so the last
write of any list of fragments with pairwise distinct chunk numbers whose count
equals total_chunks is reported completed even when those numbers are not
1..total_chunks. -/
theorem C10_no_range_validation (uid : String) (total : Int)
    (l : List (Int × Bytes)) (p : Int × Bytes)
    (hnd : ((l ++ [p]).map Prod.fst).Nodup)
    (hlen : ((l ++ [p]).length : Int) = total) :
    (save_chunk (saveAll uid total [] l) uid p.1 total p.2).2.status = "completed" ∧
    lookupChunk (save_chunk (saveAll uid total [] l) uid p.1 total p.2).1 p.1
        = some p.2 ∧
    ∀ q ∈ l,
      lookupChunk (save_chunk (saveAll uid total [] l) uid p.1 total p.2).1 q.1
        = some q.2 := by
  have hnd2 : (l.map Prod.fst ++ [p.1]).Nodup := by simpa using hnd
  have hndl : (l.map Prod.fst).Nodup := (List.nodup_append.mp hnd2).1
  have hfresh : p.1 ∉ chunkNumbers l := by
    have hdis := (List.nodup_append.mp hnd2).2.2
    intro hin
    exact hdis hin (by simp)
  have hsave : saveAll uid total [] l = l := by
    simpa using saveAll_fresh uid total l [] (by simpa using hndl)
  have hdir : (save_chunk (saveAll uid total [] l) uid p.1 total p.2).1
      = l ++ [(p.1, p.2)] := by
    rw [save_chunk_dir, hsave, putChunk_fresh l p.1 p.2 hfresh]
  refine ⟨?_, ?_, ?_⟩
  · rw [save_chunk_status_completed, hsave, putChunk_fresh l p.1 p.2 hfresh]
    simpa [uploadedChunks] using hlen
  · rw [save_chunk_dir, hsave]
    exact lookup_upsert_self l p.1 p.2
  · intro q hq
    rw [hdir]
    exact lookup_append_of_some l [(p.1, p.2)] q.1 q.2
      (lookup_of_mem_nodup_keys l q hq hndl)

/-- Witness for C10: chunk numbers -5 and 0 with total_chunks 2 complete the
upload although the recorded numbers are not 1..2. -/
theorem C10_no_range_validation_witness :
    (save_chunk (saveAll "u10" 2 [] [((-5 : Int), ([1] : Bytes))]) "u10" (0 : Int) 2
        [2]).2.status = "completed" ∧
    lookupChunk (save_chunk (saveAll "u10" 2 [] [((-5 : Int), ([1] : Bytes))]) "u10"
        (0 : Int) 2 [2]).1 (0 : Int) = some [2] ∧
    ∀ q ∈ [((-5 : Int), ([1] : Bytes))],
      lookupChunk (save_chunk (saveAll "u10" 2 [] [((-5 : Int), ([1] : Bytes))]) "u10"
          (0 : Int) 2 [2]).1 q.1 = some q.2 :=
  C10_no_range_validation "u10" 2 [((-5 : Int), ([1] : Bytes))] ((0 : Int), [2])
    (by decide) (by decide)

end VideoTool
